import Mathlib

/-
Shallow embedding of the grass meta-tracing engine
(src/grass/src/driver/meta/interp.rs, src/grass/src/driver/mod.rs,
src/grass/src/bc/opt.rs) and theorems about its behaviour.

Machine integers are modelled as Nat / Int with explicit reduction
modulo 2 ^ 64 where the source relies on machine-width wraparound.
Reference-counted interior-mutable cells are modelled as indices into
an explicit heap (a list of values, allocation appends).
Every panic, unimplemented arm or out-of-bounds index in the source
is modelled as the value none of an Option result.
-/

namespace Grass

/-- Binary operator kinds, from the bc::bytecode::BinOp enum as used in
interp.rs (match arms of the int_binops macro and the boolean case). -/
inductive BinOp where
  | Add | Sub | Mul | Div | Rem | BitXor | BitAnd | BitOr
  | Shl | Shr | Eq | Ne | Lt | Le | Gt | Ge
deriving DecidableEq, Repr

/-- Instruction pointer: (function index, opcode index), from
core::objects::InstructionPointer as used throughout interp.rs. -/
structure InstructionPointer where
  func : Nat
  pc : Nat
deriving DecidableEq, Repr

/-- Guard payload: expected branch outcome and recovery instruction
pointer, from bc::bytecode::Guard as constructed in Tracer::trace_opcode. -/
structure Guard where
  expected : Bool
  recovery : InstructionPointer
deriving DecidableEq, Repr

/-- Tagged runtime values, from core::objects::R_BoxedValue as used in
interp.rs.  Aggregates hold lists of heap cell indices; a pointer holds
one cell index; Static is a deferred-constant reference into the
function table. -/
inductive RVal where
  | I64 (n : Int)
  | U64 (n : Nat)
  | Usize (n : Nat)
  | Bool (b : Bool)
  | Func (idx : Nat)
  | Struct (cells : List Nat)
  | Ptr (cell : Nat)
  | Static (defId : Nat)
  | Array (cells : List Nat)
deriving DecidableEq, Repr

/-- Opcodes, from bc::bytecode::OpCode: exactly the variants the
interpreter, tracer and optimizer in src mention. -/
inductive OpCode where
  | Panic
  | ConstValue (val : RVal)
  | Tuple (size : Nat)
  | TupleInit (idx : Nat)
  | TupleGet (idx : Nat)
  | TupleSet (idx : Nat)
  | Unsize
  | Use
  | Ref
  | Deref
  | Load (localIndex : Nat)
  | Store (localIndex : Nat)
  | Call
  | Static (idx : Nat)
  | Return
  | Skip (n : Nat)
  | JumpBack (n : Nat)
  | SkipIf (n : Nat)
  | JumpBackIf (n : Nat)
  | GetIndex
  | AssignIndex
  | Array (size : Nat)
  | Repeat (size : Nat)
  | Len
  | BinOp (kind : BinOp)
  | CheckedBinOp (kind : BinOp)
  | Not
  | Neg
  | Noop
  | Guard (guard : Guard)
  | Pop
deriving DecidableEq, Repr

/-- Operand stack entry: an owned value or a reference to a heap cell,
from meta::interp::StackVal. -/
inductive StackVal where
  | owned (v : RVal)
  | ref (cell : Nat)
deriving DecidableEq, Repr

/-- Call frame: optional return address plus local slots (heap cell
indices), from core::objects::CallFrame as used in interp.rs. -/
structure CallFrame where
  return_addr : Option InstructionPointer
  locals : List Nat
deriving DecidableEq, Repr

/-- Program representation: one function is (arg-count, local-count,
opcode list), mirroring the tuple type Vec of (usize, usize, Vec of
OpCode) from interp.rs. -/
abbrev Program := List (Nat × Nat × List OpCode)

/-- Interpreter state: the heap of shared mutable cells, the working
operand stack, and the call-frame stack, from meta::interp::Interpreter
(the program itself is passed separately). -/
structure InterpState where
  heap : List RVal
  stack : List StackVal
  stack_frames : List CallFrame
deriving DecidableEq, Repr

/-- Modelled from the spec: core::objects (absent from src) initializes
aggregate cells and call-frame locals to a placeholder zero value
before any field write. -/
def placeholderVal : RVal := RVal.Usize 0

/-- Allocate one fresh heap cell holding v; returns the new heap and
the index of the cell. -/
def allocCell (h : List RVal) (v : RVal) : List RVal × Nat :=
  (h ++ [v], h.length)

/-- Allocate n fresh cells all holding v. -/
def allocCells (h : List RVal) (n : Nat) (v : RVal) : List RVal × List Nat :=
  (h ++ List.replicate n v, List.range' h.length n)

/-- Write v into cell c (fails if the index is not a live cell, which
cannot happen for indices produced by allocation). -/
def writeCell (h : List RVal) (c : Nat) (v : RVal) : Option (List RVal) :=
  if c < h.length then some (h.set c v) else none

/-- Reduction into the signed 64-bit range, for the machine-width
wraparound semantics of i64 arithmetic. -/
def wrap64 (x : Int) : Int := (x + 2 ^ 63) % 2 ^ 64 - 2 ^ 63

/-- Reduction into the unsigned 64-bit range. -/
def wrapU64 (n : Nat) : Nat := n % 2 ^ 64

/-- Two's-complement bit pattern of a signed value. -/
def toTwos (x : Int) : Nat := (x % 2 ^ 64).toNat

/-- Signed value of a two's-complement bit pattern. -/
def ofTwos (n : Nat) : Int := wrap64 (Int.ofNat n)

/-- Shift amount of a signed right operand: the low six bits of its bit
pattern (release-mode masking). -/
def shamtI (r : Int) : Nat := toTwos r % 64

/-- Signed 64-bit binary operations (int_binops macro, I64 case).
Division by zero and the overflowing division MIN / -1 are fatal. -/
def intBinop (kind : BinOp) (l r : Int) : Option RVal :=
  match kind with
  | .Add => some (.I64 (wrap64 (l + r)))
  | .Sub => some (.I64 (wrap64 (l - r)))
  | .Mul => some (.I64 (wrap64 (l * r)))
  | .Div =>
      if r = 0 ∨ (l = -(2 ^ 63) ∧ r = -1) then none
      else some (.I64 (Int.tdiv l r))
  | .Rem =>
      if r = 0 ∨ (l = -(2 ^ 63) ∧ r = -1) then none
      else some (.I64 (Int.tmod l r))
  | .BitXor => some (.I64 (ofTwos (Nat.xor (toTwos l) (toTwos r))))
  | .BitAnd => some (.I64 (ofTwos (Nat.land (toTwos l) (toTwos r))))
  | .BitOr => some (.I64 (ofTwos (Nat.lor (toTwos l) (toTwos r))))
  | .Shl => some (.I64 (wrap64 (l * 2 ^ shamtI r)))
  | .Shr => some (.I64 (Int.fdiv l (2 ^ shamtI r)))
  | .Eq => some (.Bool (decide (l = r)))
  | .Ne => some (.Bool (decide (l ≠ r)))
  | .Lt => some (.Bool (decide (l < r)))
  | .Le => some (.Bool (decide (l ≤ r)))
  | .Gt => some (.Bool (decide (r < l)))
  | .Ge => some (.Bool (decide (r ≤ l)))

/-- Unsigned 64-bit binary operations (int_binops macro, U64 and Usize
cases); mk is the value constructor of the operand kind. -/
def natBinop (mk : Nat → RVal) (kind : BinOp) (l r : Nat) : Option RVal :=
  match kind with
  | .Add => some (mk (wrapU64 (l + r)))
  | .Sub => some (mk (wrapU64 (l % 2 ^ 64 + (2 ^ 64 - r % 2 ^ 64))))
  | .Mul => some (mk (wrapU64 (l * r)))
  | .Div => if r = 0 then none else some (mk (l / r))
  | .Rem => if r = 0 then none else some (mk (l % r))
  | .BitXor => some (mk (wrapU64 (Nat.xor l r)))
  | .BitAnd => some (mk (wrapU64 (Nat.land l r)))
  | .BitOr => some (mk (wrapU64 (Nat.lor l r)))
  | .Shl => some (mk (wrapU64 (l * 2 ^ (r % 64))))
  | .Shr => some (mk (wrapU64 l / 2 ^ (r % 64)))
  | .Eq => some (.Bool (decide (l = r)))
  | .Ne => some (.Bool (decide (l ≠ r)))
  | .Lt => some (.Bool (decide (l < r)))
  | .Le => some (.Bool (decide (l ≤ r)))
  | .Gt => some (.Bool (decide (r < l)))
  | .Ge => some (.Bool (decide (r ≤ l)))

/-- Boolean binary operations; arithmetic and shift operators on
booleans are fatal, as in the source. -/
def boolBinop (kind : BinOp) (l r : Bool) : Option RVal :=
  match kind with
  | .Eq => some (.Bool (l == r))
  | .Ne => some (.Bool (l != r))
  | .Lt => some (.Bool (!l && r))
  | .Le => some (.Bool (!l || r))
  | .Gt => some (.Bool (l && !r))
  | .Ge => some (.Bool (l || !r))
  | .BitOr => some (.Bool (l || r))
  | .BitXor => some (.Bool (Bool.xor l r))
  | .BitAnd => some (.Bool (l && r))
  | _ => none

/-- Value-level dispatch of Interpreter::_do_binop: operands of
matching primitive kind are combined, every other pairing is fatal. -/
def binopEval (kind : BinOp) (l r : RVal) : Option RVal :=
  match l, r with
  | .I64 a, .I64 b => intBinop kind a b
  | .U64 a, .U64 b => natBinop RVal.U64 kind a b
  | .Usize a, .Usize b => natBinop RVal.Usize kind a b
  | .Bool a, .Bool b => boolBinop kind a b
  | _, _ => none

/-- StackVal::into_owned followed by unwrap_value: an owned value is
returned as is, a reference is read through the heap. -/
def intoOwned (h : List RVal) : StackVal → Option RVal
  | .owned v => some v
  | .ref c => h[c]?

/-- Pop the raw top stack entry (fatal on an empty stack). -/
def popRaw (s : InterpState) : Option (StackVal × InterpState) :=
  match s.stack with
  | [] => none
  | sv :: rest => some (sv, { s with stack := rest })

/-- Interpreter::load_const: read the deferred constant stored as the
first opcode of function idx. -/
def loadConst (prog : Program) (idx : Nat) : Option RVal :=
  match prog[idx]? with
  | some fd =>
      match fd.2.2.head? with
      | some (OpCode.ConstValue v) => some v
      | _ => none
  | none => none

/-- Substitute a deferred-constant reference by the constant it points
to; any other value passes through (pop_value and peek_value tails). -/
def resolveStatic (prog : Program) (v : RVal) : Option RVal :=
  match v with
  | .Static defId => loadConst prog defId
  | v => some v

/-- Interpreter::pop_value: pop, materialize, then resolve a deferred
constant. -/
def popValue (prog : Program) (s : InterpState) : Option (RVal × InterpState) := do
  let (sv, s1) ← popRaw s
  let v ← intoOwned s1.heap sv
  let v1 ← resolveStatic prog v
  pure (v1, s1)

/-- Interpreter::peek_value: like pop_value but leaves the stack entry
in place. -/
def peekValue (prog : Program) (s : InterpState) : Option RVal := do
  let sv ← s.stack.head?
  let v ← intoOwned s.heap sv
  resolveStatic prog v

/-- Push a stack entry. -/
def push (s : InterpState) (sv : StackVal) : InterpState :=
  { s with stack := sv :: s.stack }

/-- Interpreter::o_load: push a place referencing the local cell. -/
def o_load (localIdx : Nat) (s : InterpState) : Option InterpState := do
  let fr ← s.stack_frames.getLast?
  let c ← fr.locals[localIdx]?
  pure (push s (.ref c))

/-- Interpreter::o_store: pop the raw top entry and write it into the
local cell; the entry must be an owned value (unwrap_value), a place is
fatal. -/
def o_store (localIdx : Nat) (s : InterpState) : Option InterpState := do
  let (sv, s1) ← popRaw s
  let fr ← s1.stack_frames.getLast?
  let c ← fr.locals[localIdx]?
  match sv with
  | .owned v => do
      let h ← writeCell s1.heap c v
      pure { s1 with heap := h }
  | .ref _ => none

/-- Interpreter::o_ref: take the address of the top place (fatal on an
owned value, via unwrap_cell). -/
def o_ref (s : InterpState) : Option InterpState := do
  let (sv, s1) ← popRaw s
  match sv with
  | .ref c => pure (push s1 (.owned (.Ptr c)))
  | .owned _ => none

/-- Interpreter::o_deref: the top entry must materialize to a pointer
value; push the cell it addresses as a place (no deferred-constant
resolution here, matching StackVal::deref). -/
def o_deref (s : InterpState) : Option InterpState := do
  let (sv, s1) ← popRaw s
  let v ← intoOwned s1.heap sv
  match v with
  | .Ptr c => pure (push s1 (.ref c))
  | _ => none

/-- StackVal::into_cell followed by unwrap_cell: an owned value is
promoted into a fresh cell, a reference keeps its cell (aliasing). -/
def intoCell (h : List RVal) : StackVal → List RVal × Nat
  | .owned v => allocCell h v
  | .ref c => (h, c)

/-- Argument-passing loop of Interpreter::o_call: for idx in
(0..n).rev(), pop an entry, promote it to a cell and store that cell
into local slot idx. -/
def popArgs : Nat → List Nat → InterpState → Option (List Nat × InterpState)
  | 0, locals, s => some (locals, s)
  | Nat.succ k, locals, s => do
      let (sv, s1) ← popRaw s
      let (h, c) := intoCell s1.heap sv
      if k < locals.length then
        popArgs k (locals.set k c) { s1 with heap := h }
      else none

/-- Interpreter::o_call: pop a function reference, build a frame sized
to the callee local count, pop the arguments into its locals in reverse
declared order, push the frame; yields the callee function index. -/
def o_call (prog : Program) (s : InterpState) (curFunc curPc : Nat) :
    Option (InterpState × Nat) := do
  let (sv, s1) ← popRaw s
  let v ← intoOwned s1.heap sv
  match v with
  | .Func idx => do
      let fd ← prog[idx]?
      let (h, cells) := allocCells s1.heap fd.2.1 placeholderVal
      let (locals, s2) ← popArgs fd.1 cells { s1 with heap := h }
      let frame : CallFrame :=
        { return_addr := some { func := curFunc, pc := curPc }, locals := locals }
      pure ({ s2 with stack_frames := s2.stack_frames ++ [frame] }, idx)
  | _ => none

/-- Interpreter::o_load_static: push an empty frame returning to the
current position; yields the static function index. -/
def o_load_static (prog : Program) (staticIdx : Nat) (curFunc curPc : Nat) (s : InterpState) :
    Option (InterpState × Nat) := do
  let _ ← prog[staticIdx]?
  let frame : CallFrame :=
    { return_addr := some { func := curFunc, pc := curPc }, locals := [] }
  pure ({ s with stack_frames := s.stack_frames ++ [frame] }, staticIdx)

/-- Interpreter::o_return: pop the current frame and yield its return
address; with no frame left the result is none (invocation stops). -/
def o_return (s : InterpState) : Option InstructionPointer × InterpState :=
  match s.stack_frames.getLast? with
  | some fr => (fr.return_addr, { s with stack_frames := s.stack_frames.dropLast })
  | none => (none, s)

/-- Interpreter::o_tuple: push a fresh aggregate of size
placeholder-initialized cells. -/
def o_tuple (size : Nat) (s : InterpState) : InterpState :=
  let (h, cells) := allocCells s.heap size placeholderVal
  push { s with heap := h } (.owned (.Struct cells))

/-- Interpreter::o_tuple_init: pop a value and write it into field idx
of the aggregate that stays on top of the stack; the top entry must be
an owned aggregate. -/
def o_tuple_init (prog : Program) (idx : Nat) (s : InterpState) : Option InterpState := do
  let (v, s1) ← popValue prog s
  let sv ← s1.stack.head?
  match sv with
  | .owned (.Struct cells) => do
      let c ← cells[idx]?
      let h ← writeCell s1.heap c v
      pure { s1 with heap := h }
  | _ => none

/-- Interpreter::o_tuple_set: pop the aggregate, pop the value, write
the value into field idx (the write is visible through the shared
cells). -/
def o_tuple_set (prog : Program) (idx : Nat) (s : InterpState) : Option InterpState := do
  let (boxedTuple, s1) ← popValue prog s
  let (v, s2) ← popValue prog s1
  match boxedTuple with
  | .Struct cells => do
      let c ← cells[idx]?
      let h ← writeCell s2.heap c v
      pure { s2 with heap := h }
  | _ => none

/-- Interpreter::o_tuple_get: pop an aggregate and push field idx as a
place. -/
def o_tuple_get (prog : Program) (idx : Nat) (s : InterpState) : Option InterpState := do
  let (v, s1) ← popValue prog s
  match v with
  | .Struct cells => do
      let c ← cells[idx]?
      pure (push s1 (.ref c))
  | _ => none

/-- Interpreter::o_get_index: pop target then index; the target must be
an aggregate and the index an unsigned word; push the addressed cell as
a place. -/
def o_get_index (prog : Program) (s : InterpState) : Option InterpState := do
  let (target, s1) ← popValue prog s
  let (index, s2) ← popValue prog s1
  match target, index with
  | .Struct cells, .Usize i => do
      let c ← cells[i]?
      pure (push s2 (.ref c))
  | _, _ => none

/-- Interpreter::o_assign_index: pop target, index, value; write the
value through the addressed cell. -/
def o_assign_index (prog : Program) (s : InterpState) : Option InterpState := do
  let (target, s1) ← popValue prog s
  let (index, s2) ← popValue prog s1
  let (v, s3) ← popValue prog s2
  match target, index with
  | .Struct cells, .Usize i => do
      let c ← cells[i]?
      let h ← writeCell s3.heap c v
      pure { s3 with heap := h }
  | _, _ => none

/-- Element loop of Interpreter::o_array: for idx in (0..n).rev(), pop
a value and write it into cell idx. -/
def popSetCells (prog : Program) : Nat → List Nat → InterpState → Option InterpState
  | 0, _, s => some s
  | Nat.succ k, cells, s => do
      let (v, s1) ← popValue prog s
      let c ← cells[k]?
      let h ← writeCell s1.heap c v
      popSetCells prog k cells { s1 with heap := h }

/-- Interpreter::o_array: build a fixed-size aggregate by popping size
values in reverse positional order. -/
def o_array (prog : Program) (size : Nat) (s : InterpState) : Option InterpState := do
  let (h, cells) := allocCells s.heap size placeholderVal
  let s1 ← popSetCells prog size cells { s with heap := h }
  pure (push s1 (.owned (.Struct cells)))

/-- Write v into every listed cell in order (the initialization loop of
Interpreter::o_repeat). -/
def setAllCells (v : RVal) : List Nat → List RVal → Option (List RVal)
  | [], h => some h
  | c :: rest, h => do
      let h1 ← writeCell h c v
      setAllCells v rest h1

/-- Interpreter::o_repeat: pop one value and replicate it into size
cells of a fresh aggregate. -/
def o_repeat (prog : Program) (size : Nat) (s : InterpState) : Option InterpState := do
  let (v, s1) ← popValue prog s
  let (h, cells) := allocCells s1.heap size placeholderVal
  let h1 ← setAllCells v cells h
  pure (push { s1 with heap := h1 } (.owned (.Struct cells)))

/-- Interpreter::o_len: pop an aggregate (or array value) and push its
length. -/
def o_len (prog : Program) (s : InterpState) : Option InterpState := do
  let (v, s1) ← popValue prog s
  match v with
  | .Struct cells => pure (push s1 (.owned (.Usize cells.length)))
  | .Array cells => pure (push s1 (.owned (.Usize cells.length)))
  | _ => none

/-- Interpreter::o_not: pop a boolean and push its negation. -/
def o_not (prog : Program) (s : InterpState) : Option InterpState := do
  let (v, s1) ← popValue prog s
  match v with
  | .Bool b => pure (push s1 (.owned (.Bool (!b))))
  | _ => none

/-- Interpreter::_do_binop: pop right, pop left, combine. -/
def doBinop (prog : Program) (kind : BinOp) (s : InterpState) :
    Option (RVal × InterpState) := do
  let (r, s1) ← popValue prog s
  let (l, s2) ← popValue prog s1
  let v ← binopEval kind l r
  pure (v, s2)

/-- Interpreter::o_binop: push the raw result. -/
def o_binop (prog : Program) (kind : BinOp) (s : InterpState) : Option InterpState := do
  let (v, s1) ← doBinop prog kind s
  pure (push s1 (.owned v))

/-- Interpreter::o_checked_binop: build a two-cell aggregate first (as
the source does), run the operation, store the result in cell 0 and the
boolean false (no error) in cell 1, push the aggregate. -/
def o_checked_binop (prog : Program) (kind : BinOp) (s : InterpState) :
    Option InterpState := do
  let (h, cells) := allocCells s.heap 2 placeholderVal
  let (v, s1) ← doBinop prog kind { s with heap := h }
  let c0 ← cells[0]?
  let h1 ← writeCell s1.heap c0 v
  let c1 ← cells[1]?
  let h2 ← writeCell h1 c1 (.Bool false)
  pure (push { s1 with heap := h2 } (.owned (.Struct cells)))

/-- Control outcome of one dispatched opcode, from
meta::interp::DispatchResult. -/
inductive DispatchResult where
  | Next
  | Jump (target : Nat)
  | Call (func : Nat) (pc : Nat)
  | Stop
deriving DecidableEq, Repr

/-- Interpreter::dispatch: execute one opcode of the baseline
interpreter at position pos; fatal situations (Panic, type errors,
unimplemented opcodes such as Neg, Guard and Pop) give none. -/
def dispatch (prog : Program) (s : InterpState) (opcode : OpCode)
    (pos : InstructionPointer) : Option (InterpState × DispatchResult) :=
  match opcode with
  | .Panic => none
  | .ConstValue v => some (push s (.owned v), .Next)
  | .Tuple size => some (o_tuple size s, .Next)
  | .TupleInit idx => (o_tuple_init prog idx s).map (fun s1 => (s1, .Next))
  | .TupleGet idx => (o_tuple_get prog idx s).map (fun s1 => (s1, .Next))
  | .TupleSet idx => (o_tuple_set prog idx s).map (fun s1 => (s1, .Next))
  | .Unsize => (do
      let (sv, s1) ← popRaw s
      let v ← intoOwned s1.heap sv
      pure (push s1 (.owned v), DispatchResult.Next))
  | .Use => (do
      let (sv, s1) ← popRaw s
      let v ← intoOwned s1.heap sv
      pure (push s1 (.owned v), DispatchResult.Next))
  | .Ref => (o_ref s).map (fun s1 => (s1, .Next))
  | .Deref => (o_deref s).map (fun s1 => (s1, .Next))
  | .Load i => (o_load i s).map (fun s1 => (s1, .Next))
  | .Store i => (o_store i s).map (fun s1 => (s1, .Next))
  | .Call => (o_call prog s pos.func pos.pc).map (fun p => (p.1, .Call p.2 0))
  | .Static idx =>
      (o_load_static prog idx pos.func pos.pc s).map (fun p => (p.1, .Call p.2 0))
  | .Return =>
      match o_return s with
      | (some ret, s1) => some (s1, .Call ret.func ret.pc)
      | (none, s1) => some (s1, .Stop)
  | .Skip n => some (s, .Jump (pos.pc + n))
  | .JumpBack n => some (s, .Jump (pos.pc - n))
  | .SkipIf n => (do
      let (v, s1) ← popValue prog s
      match v with
      | .Bool b =>
          if b then pure (s1, DispatchResult.Jump (pos.pc + n))
          else pure (s1, DispatchResult.Next)
      | _ => none)
  | .JumpBackIf n => (do
      let (v, s1) ← popValue prog s
      match v with
      | .Bool b =>
          if b then pure (s1, DispatchResult.Jump (pos.pc - n))
          else pure (s1, DispatchResult.Next)
      | _ => none)
  | .GetIndex => (o_get_index prog s).map (fun s1 => (s1, .Next))
  | .AssignIndex => (o_assign_index prog s).map (fun s1 => (s1, .Next))
  | .Array size => (o_array prog size s).map (fun s1 => (s1, .Next))
  | .Repeat size => (o_repeat prog size s).map (fun s1 => (s1, .Next))
  | .Len => (o_len prog s).map (fun s1 => (s1, .Next))
  | .BinOp kind => (o_binop prog kind s).map (fun s1 => (s1, .Next))
  | .CheckedBinOp kind => (o_checked_binop prog kind s).map (fun s1 => (s1, .Next))
  | .Not => (o_not prog s).map (fun s1 => (s1, .Next))
  | .Neg => none
  | .Noop => some (s, .Next)
  | .Guard _ => none
  | .Pop => none

/-- Outcome of one iteration of the Interpreter::run_trace loop:
continue at a trace position, or abort with the failed guard. -/
inductive TraceStepRes where
  | cont (s : InterpState) (pc : Nat)
  | fail (guard : Guard) (s : InterpState)
deriving DecidableEq, Repr

/-- One iteration of Interpreter::run_trace: wrap the program counter
to zero past the end of the trace, fetch, and execute with the same
helper operations as the baseline interpreter; a Guard peeks at the
boolean on top of the stack, pops it on a match and aborts with the
guard on a mismatch; opcodes with no arm in the source loop (the
call and return family, Pop) are fatal. -/
def runTraceStep (prog : Program) (tr : List OpCode) (s : InterpState)
    (pc0 : Nat) : Option TraceStepRes :=
  let pc := if pc0 ≥ tr.length then 0 else pc0
  match tr[pc]? with
  | none => none
  | some opcode =>
    match opcode with
    | .Panic => none
    | .Guard guard =>
        match peekValue prog s with
        | some (.Bool value) =>
            if value == guard.expected then
              some (.cont { s with stack := s.stack.tail } (pc + 1))
            else
              some (.fail guard s)
        | some _ => none
        | none => none
    | .ConstValue v => some (.cont (push s (.owned v)) (pc + 1))
    | .Tuple size => some (.cont (o_tuple size s) (pc + 1))
    | .TupleInit idx => (o_tuple_init prog idx s).map (fun s1 => .cont s1 (pc + 1))
    | .TupleGet idx => (o_tuple_get prog idx s).map (fun s1 => .cont s1 (pc + 1))
    | .TupleSet idx => (o_tuple_set prog idx s).map (fun s1 => .cont s1 (pc + 1))
    | .Unsize => (do
        let (sv, s1) ← popRaw s
        let v ← intoOwned s1.heap sv
        pure (TraceStepRes.cont (push s1 (.owned v)) (pc + 1)))
    | .Use => (do
        let (sv, s1) ← popRaw s
        let v ← intoOwned s1.heap sv
        pure (TraceStepRes.cont (push s1 (.owned v)) (pc + 1)))
    | .Ref => (o_ref s).map (fun s1 => .cont s1 (pc + 1))
    | .Deref => (o_deref s).map (fun s1 => .cont s1 (pc + 1))
    | .Load i => (o_load i s).map (fun s1 => .cont s1 (pc + 1))
    | .Store i => (o_store i s).map (fun s1 => .cont s1 (pc + 1))
    | .Skip n => some (.cont s (pc + n))
    | .JumpBack n => some (.cont s (pc - n))
    | .SkipIf n => (do
        let (v, s1) ← popValue prog s
        match v with
        | .Bool b =>
            if b then pure (TraceStepRes.cont s1 (pc + n))
            else pure (TraceStepRes.cont s1 (pc + 1))
        | _ => none)
    | .JumpBackIf n => (do
        let (v, s1) ← popValue prog s
        match v with
        | .Bool b =>
            if b then pure (TraceStepRes.cont s1 (pc - n))
            else pure (TraceStepRes.cont s1 (pc + 1))
        | _ => none)
    | .GetIndex => (o_get_index prog s).map (fun s1 => .cont s1 (pc + 1))
    | .AssignIndex => (o_assign_index prog s).map (fun s1 => .cont s1 (pc + 1))
    | .Array size => (o_array prog size s).map (fun s1 => .cont s1 (pc + 1))
    | .Repeat size => (o_repeat prog size s).map (fun s1 => .cont s1 (pc + 1))
    | .Len => (o_len prog s).map (fun s1 => .cont s1 (pc + 1))
    | .BinOp kind => (o_binop prog kind s).map (fun s1 => .cont s1 (pc + 1))
    | .CheckedBinOp kind => (o_checked_binop prog kind s).map (fun s1 => .cont s1 (pc + 1))
    | .Not => (o_not prog s).map (fun s1 => .cont s1 (pc + 1))
    | .Neg => none
    | .Noop => some (.cont s (pc + 1))
    | .Call => none
    | .Static _ => none
    | .Return => none
    | .Pop => none

/-- Interpreter::run_trace: iterate runTraceStep until some guard
fails, then return that guard and the state (fuel-indexed; exhausted
fuel gives none). -/
def runTrace (prog : Program) (tr : List OpCode) :
    Nat → InterpState → Nat → Option (Guard × InterpState)
  | 0, _, _ => none
  | Nat.succ fuel, s, pc =>
      match runTraceStep prog tr s pc with
      | some (.cont s1 pc1) => runTrace prog tr fuel s1 pc1
      | some (.fail guard s1) => some (guard, s1)
      | none => none

/-- Fetch the opcode at (func, pc) of the program (fatal when out of
bounds, as the source indexing panics). -/
def fetchOp (prog : Program) (func pc : Nat) : Option OpCode :=
  match prog[func]? with
  | some fd => fd.2.2[pc]?
  | none => none

/-- Association-list lookup standing in for BTreeMap::get. -/
def lookupT {α : Type} : List (Nat × α) → Nat → Option α
  | [], _ => none
  | (k0, v0) :: rest, k => if k0 = k then some v0 else lookupT rest k

/-- Association-list insert standing in for BTreeMap::insert. -/
def insertT {α : Type} : List (Nat × α) → Nat → α → List (Nat × α)
  | [], k, v => [(k, v)]
  | (k0, v0) :: rest, k, v =>
      if k0 = k then (k, v) :: rest else (k0, v0) :: insertT rest k v

/-- Tracer state, from driver::Tracer: per-key visit counters, finished
trace cache, the key of the loop being recorded, the de-duplication
set of seen jump targets, and the in-progress buffer (present only
while recording). -/
structure Tracer where
  counter : List (Nat × Nat)
  traces : List (Nat × List OpCode)
  loop_start : Nat
  seen_jump_targets : List Nat
  active : Option (List OpCode)
deriving DecidableEq, Repr

/-- Tracer decision at a merge point, from driver::MergePointResult. -/
inductive MergePointResult where
  | Trace (trace : List OpCode)
  | StartTrace
  | None
deriving DecidableEq, Repr

/-- Hotness threshold, from driver::HOT_LOOP_THRESHOLD. -/
def HOT_LOOP_THRESHOLD : Nat := 2

/-- Tracer::handle_mergepoint: cached trace wins; otherwise while idle
bump the visit counter and start recording past the threshold; the
loop-closing arm while recording is a panic in the source (none here);
any other visit is a no-op. -/
def handle_mergepoint (t : Tracer) (key : Nat) : Option (Tracer × MergePointResult) :=
  match lookupT t.traces key with
  | some tr => some (t, .Trace tr)
  | none =>
    match t.active with
    | none =>
        let count := (lookupT t.counter key).getD 0 + 1
        if count > HOT_LOOP_THRESHOLD then
          some ({ t with active := some [], counter := [], loop_start := key },
                .StartTrace)
        else
          some ({ t with counter := insertT t.counter key count }, .None)
    | some _ =>
        if key = t.loop_start then none
        else some (t, .None)

/-- Tracer::finish_trace: take the active buffer (fatal when no
recording is active), clear the seen-jump-target set, and cache the
buffer as the trace for the key. -/
def finish_trace (t : Tracer) (key : Nat) : Option Tracer :=
  match t.active with
  | some buf =>
      some { t with active := none, seen_jump_targets := [],
                    traces := insertT t.traces key buf }
  | none => none

/-- Tracer::trace_opcode: the transform applied to each opcode executed
while recording, before it is appended to the active buffer.
Unconditional jumps are dropped (early return, before the buffer is
touched); conditional branches become a Guard holding the boolean
currently on top of the interpreter stack and the branch position;
everything else is appended verbatim.  Appending unwraps the active
buffer, so tracing a non-jump opcode while not recording is fatal. -/
def trace_opcode (t : Tracer) (stack : List StackVal) (heap : List RVal)
    (opcode : OpCode) (pos : InstructionPointer) : Option Tracer :=
  match opcode with
  | .Skip _ => some t
  | .JumpBack _ => some t
  | .SkipIf _ | .JumpBackIf _ =>
      match stack.head? with
      | none => none
      | some sv =>
        match intoOwned heap sv with
        | some (RVal.Bool expected) =>
            match t.active with
            | some buf =>
                let g : Guard := { expected := expected, recovery := pos }
                some { t with active := some (buf ++ [OpCode.Guard g]) }
            | none => none
        | _ => none
  | _ =>
      match t.active with
      | some buf => some { t with active := some (buf ++ [opcode]) }
      | none => none

/-- Interpreter::trace: run the baseline interpreter in recording mode
from a start position, handing every fetched opcode to
Tracer::trace_opcode before dispatching it; a jump below the start
position ends the run; DispatchResult::Stop is a panic in the source. -/
def traceInterp (prog : Program) (start : InstructionPointer) :
    Nat → Tracer → InterpState → Nat → Nat → Option (Tracer × InterpState)
  | 0, _, _, _, _ => none
  | Nat.succ fuel, t, s, funcPointer, pc =>
      match fetchOp prog funcPointer pc with
      | none => none
      | some opcode =>
        match trace_opcode t s.stack s.heap opcode { func := funcPointer, pc := pc } with
        | none => none
        | some t1 =>
          match dispatch prog s opcode { func := funcPointer, pc := pc } with
          | none => none
          | some (s1, .Next) => traceInterp prog start fuel t1 s1 funcPointer (pc + 1)
          | some (s1, .Jump newPc) =>
              if newPc < start.pc then some (t1, s1)
              else traceInterp prog start fuel t1 s1 funcPointer newPc
          | some (s1, .Call f newPc) => traceInterp prog start fuel t1 s1 f newPc
          | some (_, .Stop) => none

/-- Loop body of Interpreter::blackhole: fetch, stop once the program
counter has dropped below the stop position (same-function case),
otherwise dispatch with ordinary baseline semantics; a jump below the
start position returns immediately. -/
def blackholeLoop (prog : Program) (start stop : InstructionPointer) :
    Nat → InterpState → Nat → Nat → Option InterpState
  | 0, _, _, _ => none
  | Nat.succ fuel, s, funcPointer, pc =>
      match fetchOp prog funcPointer pc with
      | none => none
      | some opcode =>
        if start.func = stop.func ∧ pc < stop.pc then some s
        else
          match dispatch prog s opcode { func := funcPointer, pc := pc } with
          | none => none
          | some (s1, .Next) => blackholeLoop prog start stop fuel s1 funcPointer (pc + 1)
          | some (s1, .Jump newPc) =>
              if newPc < start.pc then some s1
              else blackholeLoop prog start stop fuel s1 funcPointer newPc
          | some (s1, .Call f newPc) => blackholeLoop prog start stop fuel s1 f newPc
          | some (_, .Stop) => none

/-- Interpreter::blackhole: recovery replay starting at the start
(recovery) program counter inside the stop function. -/
def blackhole (fuel : Nat) (prog : Program) (s : InterpState)
    (start stop : InstructionPointer) : Option InterpState :=
  blackholeLoop prog start stop fuel s stop.func start.pc

/-- Driver state, from driver::Driver. -/
structure Driver where
  tracer : Tracer
deriving DecidableEq, Repr

/-- Write the listed values into the listed cells pairwise (the
user-program seeding loop of Driver::merge_point). -/
def setAllCellsVals : List RVal → List Nat → List RVal → Option (List RVal)
  | h, [], [] => some h
  | h, c :: cs, v :: vs => do
      let h1 ← writeCell h c v
      setAllCellsVals h1 cs vs
  | _, _, _ => none

/-- Frame construction shared by the StartTrace and Trace arms of
Driver::merge_point: build the user-program aggregate, allocate the
frame of the merge-point function, and seed locals 1 (user program),
2 (external cell) and 3 (user program counter). -/
def setupState (prog : Program) (fnIdx : Nat) (userProgram : List Nat)
    (pc cell : Nat) : Option InterpState := do
  let fd ← prog[fnIdx]?
  let (h1, structCells) := allocCells [] userProgram.length placeholderVal
  let h2 ← setAllCellsVals h1 structCells (userProgram.map RVal.Usize)
  let (h3, localCells) := allocCells h2 fd.2.1 placeholderVal
  let c1 ← localCells[1]?
  let h4 ← writeCell h3 c1 (.Struct structCells)
  let c2 ← localCells[2]?
  let h5 ← writeCell h4 c2 (.Usize cell)
  let c3 ← localCells[3]?
  let h6 ← writeCell h5 c3 (.Usize pc)
  pure { heap := h6, stack := [],
         stack_frames := [{ return_addr := none, locals := localCells }] }

/-- Readback shared by both VM arms of Driver::merge_point: local 2 of
frame 0 updates the external cell when it holds an unsigned word
(otherwise the cell is left unchanged), local 3 must hold the new user
program counter. -/
def readback (s : InterpState) (cell : Nat) : Option (Nat × Nat) := do
  let fr ← s.stack_frames.head?
  let c2 ← fr.locals[2]?
  let v2 ← s.heap[c2]?
  let cellOut := match v2 with
    | .Usize content => content
    | _ => cell
  let c3 ← fr.locals[3]?
  let v3 ← s.heap[c3]?
  match v3 with
  | .Usize newPc => some (newPc, cellOut)
  | _ => none

/-- Driver::merge_point: ask the tracer, then record a trace, replay a
cached trace with blackhole recovery on the failed guard, or do
nothing; the result is the driver, the new user program counter, and
the (possibly mutated) external cell. -/
def merge_point (fuel : Nat) (d : Driver) (prog : Program)
    (fnIdx ocIdx : Nat) (userProgram : List Nat) (pc cell : Nat) :
    Option (Driver × Nat × Nat) := do
  let (t1, res) ← handle_mergepoint d.tracer pc
  match res with
  | .StartTrace => do
      let s0 ← setupState prog fnIdx userProgram pc cell
      let (t2, s1) ← traceInterp prog { func := fnIdx, pc := ocIdx } fuel t1 s0 fnIdx ocIdx
      let t3 ← finish_trace t2 pc
      let (newPc, cellOut) ← readback s1 cell
      pure ({ tracer := t3 }, newPc, cellOut)
  | .Trace tr => do
      let s0 ← setupState prog fnIdx userProgram pc cell
      let (guard, s1) ← runTrace prog tr fuel s0 0
      let s2 ← blackhole fuel prog s1 { func := fnIdx, pc := guard.recovery.pc }
                 { func := fnIdx, pc := ocIdx }
      let (newPc, cellOut) ← readback s2 cell
      pure ({ tracer := t1 }, newPc, cellOut)
  | .None => pure ({ tracer := t1 }, pc, cell)

/-- Loop body of bc::opt::eliminate_unused_vars, iterating over the
reversed stream; cnt tracks later loads per slot, acc holds the pushed
output with its most recent element first; the returned vector is acc
in push order. -/
def euvGo : List OpCode → List (Nat × Nat) → List OpCode → List OpCode
  | [], _, acc => acc.reverse
  | oc :: rest, cnt, acc =>
    match oc with
    | .Load v => euvGo rest (insertT cnt v ((lookupT cnt v).getD 0 + 1)) (oc :: acc)
    | .Store v =>
        let count := (lookupT cnt v).getD 0
        if count = 0 then euvGo rest (insertT cnt v 0) (.Pop :: acc)
        else
          match acc with
          | .Load loadVar :: accRest =>
              if loadVar = v ∧ count = 1 then euvGo rest (insertT cnt v count) accRest
              else euvGo rest (insertT cnt v 0) (oc :: acc)
          | _ => euvGo rest (insertT cnt v 0) (oc :: acc)
    | .Tuple 0 =>
        match acc with
        | .Pop :: accRest => euvGo rest cnt accRest
        | _ => euvGo rest cnt (oc :: acc)
    | _ => euvGo rest cnt (oc :: acc)

/-- bc::opt::eliminate_unused_vars: a single backward pass over the
stream; dead stores become Pop, a store immediately followed by the
sole later load of the same slot collapses with that load, and an
empty-aggregate construction immediately before a Pop cancels it.
The accumulated output is returned as built, in push order. -/
def eliminate_unused_vars (stream : List OpCode) : List OpCode :=
  euvGo stream.reverse [] []

/-- Branch opcodes of the baseline instruction set: the unconditional
jumps and the conditional branches, i.e. the opcodes the recording
transform must keep out of a trace. -/
def isBranchOp : OpCode → Bool
  | .Skip _ => true
  | .JumpBack _ => true
  | .SkipIf _ => true
  | .JumpBackIf _ => true
  | _ => false

/-- An opcode list free of unconditional jumps and conditional
branches. -/
def noBranch (l : List OpCode) : Prop := ∀ oc ∈ l, isBranchOp oc = false

/-- A tracer whose active buffer (when present) is branch-free. -/
def activeNoBranch (t : Tracer) : Prop :=
  ∀ buf, t.active = some buf → noBranch buf

theorem noBranch_append {l : List OpCode} {oc : OpCode} (h : noBranch l)
    (hoc : isBranchOp oc = false) : noBranch (l ++ [oc]) := by
  intro x hx
  rcases List.mem_append.mp hx with h1 | h1
  · exact h x h1
  · simp only [List.mem_singleton] at h1
    subst h1
    exact hoc

theorem lookupT_insertT {α : Type} (m : List (Nat × α)) (k : Nat) (v : α) :
    lookupT (insertT m k v) k = some v := by
  induction m with
  | nil => simp [insertT, lookupT]
  | cons p rest ih =>
      rcases p with ⟨k0, v0⟩
      by_cases hk : k0 = k
      · simp [insertT, hk, lookupT]
      · simp [insertT, hk, lookupT, ih]

theorem trace_opcode_preserves {t : Tracer} {stack : List StackVal}
    {heap : List RVal} {op : OpCode} {pos : InstructionPointer} {t1 : Tracer}
    (h : trace_opcode t stack heap op pos = some t1)
    (hno : activeNoBranch t) : activeNoBranch t1 := by
  intro buf1 hb1
  cases op <;> simp only [trace_opcode] at h
  case Skip n =>
    injection h with h
    subst h
    exact hno buf1 hb1
  case JumpBack n =>
    injection h with h
    subst h
    exact hno buf1 hb1
  case SkipIf n =>
    split at h
    · exact Option.noConfusion h
    · split at h
      · split at h
        · rename_i buf hact2
          injection h with h
          subst h
          injection hb1 with hb1
          subst hb1
          exact noBranch_append (hno buf hact2) rfl
        · exact Option.noConfusion h
      · exact Option.noConfusion h
  case JumpBackIf n =>
    split at h
    · exact Option.noConfusion h
    · split at h
      · split at h
        · rename_i buf hact2
          injection h with h
          subst h
          injection hb1 with hb1
          subst hb1
          exact noBranch_append (hno buf hact2) rfl
        · exact Option.noConfusion h
      · exact Option.noConfusion h
  all_goals
    (split at h
     · rename_i buf hact2
       injection h with h
       subst h
       injection hb1 with hb1
       subst hb1
       exact noBranch_append (hno _ hact2) rfl
     · exact Option.noConfusion h)

theorem traceInterp_preserves (prog : Program) (start : InstructionPointer) :
    ∀ (fuel : Nat) (t : Tracer) (s : InterpState) (fp pc : Nat)
      (t1 : Tracer) (s1 : InterpState),
      traceInterp prog start fuel t s fp pc = some (t1, s1) →
      activeNoBranch t → activeNoBranch t1 := by
  intro fuel
  induction fuel with
  | zero =>
      intro t s fp pc t1 s1 h
      simp [traceInterp] at h
  | succ n ih =>
      intro t s fp pc t1 s1 h hno
      rw [traceInterp] at h
      split at h
      · exact Option.noConfusion h
      · split at h
        · exact Option.noConfusion h
        · rename_i tOc hto
          have hOc : activeNoBranch tOc := trace_opcode_preserves hto hno
          split at h
          · exact Option.noConfusion h
          · rename_i s2 hd
            exact ih tOc s2 fp (pc + 1) t1 s1 h hOc
          · rename_i s2 newPc hd
            split at h
            · injection h with h
              injection h with h1 h2
              subst h1
              exact hOc
            · exact ih tOc s2 fp newPc t1 s1 h hOc
          · rename_i s2 f newPc hd
            exact ih tOc s2 f newPc t1 s1 h hOc
          · exact Option.noConfusion h

theorem range'_pair (n : Nat) : List.range' n 2 = [n, n + 1] := rfl

theorem popValue_state {prog : Program} {s : InterpState} {v : RVal}
    {s1 : InterpState} (h : popValue prog s = some (v, s1)) :
    s1.heap = s.heap ∧ s1.stack_frames = s.stack_frames ∧ s1.stack = s.stack.tail := by
  unfold popValue popRaw at h
  cases hst : s.stack <;> rw [hst] at h
  · simp at h
  · simp only [Option.bind_eq_bind, Option.some_bind] at h
    rcases Option.bind_eq_some.mp h with ⟨v0, hv0, h2⟩
    rcases Option.bind_eq_some.mp h2 with ⟨v1, hv1, h3⟩
    injection h3 with h3
    injection h3 with h4 h5
    rw [← h5]
    exact ⟨rfl, rfl, rfl⟩

theorem doBinop_state {prog : Program} {kind : BinOp} {s : InterpState}
    {v : RVal} {s1 : InterpState} (h : doBinop prog kind s = some (v, s1)) :
    s1.heap = s.heap ∧ s1.stack_frames = s.stack_frames := by
  unfold doBinop at h
  simp only [Option.bind_eq_bind] at h
  rcases Option.bind_eq_some.mp h with ⟨⟨r, sA⟩, hA, h2⟩
  rcases Option.bind_eq_some.mp h2 with ⟨⟨l, sB⟩, hB, h3⟩
  rcases Option.bind_eq_some.mp h3 with ⟨v1, hv1, h4⟩
  injection h4 with h4
  injection h4 with h5 h6
  have pA := popValue_state hA
  have pB := popValue_state hB
  rw [← h6]
  exact ⟨pB.1.trans pA.1, pB.2.1.trans pA.2.1⟩

/-- Opcodes the trace executor has an arm for: everything except the
call and return family (Call, Static, Return), which only the baseline
interpreter implements, and Guard, which only the trace executor
implements. -/
def traceSupported : OpCode → Bool
  | .Guard _ => false
  | .Call => false
  | .Static _ => false
  | .Return => false
  | _ => true

/-- Agreement between one baseline dispatch outcome and one trace-step
outcome at trace position pc: both fatal, or the same state with
fall-through becoming pc + 1, or the same state with a jump landing on
the dispatched target; call and stop outcomes never agree. -/
def stepAgrees (d : Option (InterpState × DispatchResult))
    (t : Option TraceStepRes) (pc : Nat) : Prop :=
  match d, t with
  | none, none => True
  | some (s1, .Next), some (.cont s2 pc2) => s1 = s2 ∧ pc2 = pc + 1
  | some (s1, .Jump q), some (.cont s2 pc2) => s1 = s2 ∧ pc2 = q
  | _, _ => False

/-! Theorems about the embedded program. -/

/-- C8: refutation by evaluation of the code at a failing input.  The
claim asserts eliminate_unused_vars is idempotent; the backward pass
returns its accumulator without restoring the original order, so the
output of one application is the input reversed, and a second
application reverses it back: on the two-element stream below the
double application returns the original stream, which differs from the
single application. -/
theorem eliminate_unused_vars_not_idempotent :
    eliminate_unused_vars [OpCode.ConstValue (.Usize 1), OpCode.Noop] =
      [OpCode.Noop, OpCode.ConstValue (.Usize 1)] ∧
    eliminate_unused_vars
        (eliminate_unused_vars [OpCode.ConstValue (.Usize 1), OpCode.Noop]) =
      [OpCode.ConstValue (.Usize 1), OpCode.Noop] ∧
    eliminate_unused_vars
        (eliminate_unused_vars [OpCode.ConstValue (.Usize 1), OpCode.Noop]) ≠
      eliminate_unused_vars [OpCode.ConstValue (.Usize 1), OpCode.Noop] := by
  refine ⟨rfl, rfl, ?_⟩
  decide

/-- C10: store-local demands an owned value on top of the operand
stack: whenever the top entry is a cell reference (a place), executing
Store is fatal for the whole invocation, for every local index, frame
stack and program. -/
theorem store_on_place_is_fatal (prog : Program) (s : InterpState) (i c : Nat)
    (rest : List StackVal) (pos : InstructionPointer)
    (h : s.stack = StackVal.ref c :: rest) :
    o_store i s = none ∧ dispatch prog s (OpCode.Store i) pos = none := by
  have hpop : popRaw s = some (StackVal.ref c, { s with stack := rest }) := by
    simp [popRaw, h]
  have hstore : o_store i s = none := by
    simp only [o_store, hpop, Option.bind_eq_bind, Option.some_bind]
    cases hfr : ({ s with stack := rest } : InterpState).stack_frames.getLast? with
    | none => rfl
    | some fr =>
        simp only [Option.some_bind]
        cases fr.locals[i]? <;> rfl
  exact ⟨hstore, by simp [dispatch, hstore]⟩

/-- Witness for C10 at a concrete state: a place pushed by load-local
sits on top; Store 0 aborts. -/
theorem store_on_place_is_fatal_witness :
    dispatch []
        { heap := [RVal.Usize 5], stack := [StackVal.ref 0],
          stack_frames := [{ return_addr := none, locals := [0] }] }
        (OpCode.Store 0) { func := 0, pc := 0 } = none :=
  (store_on_place_is_fatal [] _ 0 0 [] { func := 0, pc := 0 } rfl).2

/-- C5 counterexample: a merge-point visit made while a recording is
active and whose key equals the current loop key does not finalize
anything — the source arm panics ("doesn't get called anymore"),
modelled as none, instead of caching the buffer as the claim states. -/
theorem loop_close_visit_is_fatal :
    handle_mergepoint
      { counter := [], traces := [], loop_start := 7,
        seen_jump_targets := [], active := some [OpCode.Noop] } 7 = none := rfl

/-- C5 (amended): loop-close finalization is performed by
Tracer::finish_trace, which the controller invokes when the recording
run returns: it caches the active buffer as the trace for the key,
clears the recording state and clears the de-duplication set. -/
theorem finish_trace_finalizes (t : Tracer) (key : Nat) (buf : List OpCode)
    (h : t.active = some buf) :
    finish_trace t key =
      some { t with active := none, seen_jump_targets := [],
                    traces := insertT t.traces key buf } := by
  simp [finish_trace, h]

/-- Witness for the amended C5: finalizing a concrete recording caches
the buffer, clears the active state and the de-duplication set. -/
theorem finish_trace_finalizes_witness :
    finish_trace
        { counter := [], traces := [], loop_start := 7,
          seen_jump_targets := [3], active := some [OpCode.Noop] } 7 =
      some { counter := [], traces := [(7, [OpCode.Noop])], loop_start := 7,
             seen_jump_targets := [], active := none } :=
  finish_trace_finalizes _ 7 [OpCode.Noop] rfl

/-- C6: while a recording is active, any merge-point visit other than
the loop-closing one returns the tracer completely unchanged (same
active buffer, same counters, same cache) and never answers
StartTrace. -/
theorem no_nested_recording (t : Tracer) (key : Nat) (buf : List OpCode)
    (hact : t.active = some buf)
    (hkey : key ≠ t.loop_start ∨ (lookupT t.traces key).isSome = true) :
    ∃ r, handle_mergepoint t key = some (t, r) ∧ r ≠ MergePointResult.StartTrace := by
  cases htr : lookupT t.traces key with
  | some tr =>
      refine ⟨.Trace tr, ?_, by simp⟩
      simp [handle_mergepoint, htr]
  | none =>
      rcases hkey with hk | hk
      · refine ⟨.None, ?_, by simp⟩
        simp [handle_mergepoint, htr, hact, hk]
      · rw [htr] at hk
        simp at hk

/-- Witness for C6: a visit with a foreign key during an active
recording is a pure no-op decision. -/
theorem no_nested_recording_witness :
    ∃ r, handle_mergepoint
        { counter := [(5, 2)], traces := [], loop_start := 5,
          seen_jump_targets := [], active := some [] } 3 =
      some ({ counter := [(5, 2)], traces := [], loop_start := 5,
              seen_jump_targets := [], active := some [] }, r) ∧
      r ≠ MergePointResult.StartTrace :=
  no_nested_recording _ 3 [] rfl (Or.inl (by decide))

/-- C4: at a merge-point visit, a cached trace is returned immediately
with the tracer untouched (counters neither read nor written); with no
cache and no active recording the per-key counter is incremented, and
exactly when the updated count exceeds the hotness threshold all
counters are cleared and recording starts with the visited key as loop
key and an empty buffer. -/
theorem handle_mergepoint_transitions (t : Tracer) (key : Nat) :
    (∀ tr, lookupT t.traces key = some tr →
        handle_mergepoint t key = some (t, .Trace tr)) ∧
    (lookupT t.traces key = none → t.active = none →
      ((lookupT t.counter key).getD 0 + 1 > HOT_LOOP_THRESHOLD →
        handle_mergepoint t key =
          some ({ t with active := some [], counter := [], loop_start := key },
                .StartTrace)) ∧
      ((lookupT t.counter key).getD 0 + 1 ≤ HOT_LOOP_THRESHOLD →
        handle_mergepoint t key =
          some ({ t with counter :=
                    insertT t.counter key ((lookupT t.counter key).getD 0 + 1) },
                .None))) := by
  constructor
  · intro tr htr
    simp [handle_mergepoint, htr]
  · intro htr hact
    constructor
    · intro hhot
      simp [handle_mergepoint, htr, hact, hhot]
    · intro hcold
      have hnot : ¬ (lookupT t.counter key).getD 0 + 1 > HOT_LOOP_THRESHOLD := by
        omega
      simp [handle_mergepoint, htr, hact, hnot]

/-- Witness for C4: a third visit to a cold key (count going from 2 to
3, past the threshold 2) clears the counters and starts recording. -/
theorem handle_mergepoint_transitions_witness :
    handle_mergepoint
        { counter := [(9, 2)], traces := [], loop_start := 0,
          seen_jump_targets := [], active := none } 9 =
      some ({ counter := [], traces := [], loop_start := 9,
              seen_jump_targets := [], active := some [] }, .StartTrace) :=
  ((handle_mergepoint_transitions
      { counter := [(9, 2)], traces := [], loop_start := 0,
        seen_jump_targets := [], active := none } 9).2 rfl rfl).1 (by decide)

/-- C3: the recording transform.  Unconditional jumps (Skip, JumpBack)
are dropped entirely; a conditional branch (SkipIf, JumpBackIf) is
replaced by a Guard whose expected outcome is the boolean actually on
top of the interpreter stack and whose recovery pointer is the branch
position; every other opcode is appended verbatim; consequently the
active buffer stays free of unconditional jumps and conditional
branches through every recording step and through a whole recording
run, and the finished trace cached by finish_trace is that buffer. -/
theorem trace_recording_transform :
    (∀ (t : Tracer) (stack : List StackVal) (heap : List RVal)
        (pos : InstructionPointer) (n : Nat),
        trace_opcode t stack heap (.Skip n) pos = some t ∧
        trace_opcode t stack heap (.JumpBack n) pos = some t) ∧
    (∀ (t : Tracer) (stack : List StackVal) (heap : List RVal)
        (pos : InstructionPointer) (buf : List OpCode) (n : Nat)
        (sv : StackVal) (b : Bool),
        t.active = some buf → stack.head? = some sv →
        intoOwned heap sv = some (.Bool b) →
        trace_opcode t stack heap (.SkipIf n) pos =
          some { t with active := some (buf ++ [.Guard { expected := b, recovery := pos }]) } ∧
        trace_opcode t stack heap (.JumpBackIf n) pos =
          some { t with active := some (buf ++ [.Guard { expected := b, recovery := pos }]) }) ∧
    (∀ (t : Tracer) (stack : List StackVal) (heap : List RVal)
        (pos : InstructionPointer) (buf : List OpCode) (op : OpCode),
        t.active = some buf → isBranchOp op = false →
        trace_opcode t stack heap op pos =
          some { t with active := some (buf ++ [op]) }) ∧
    (∀ (prog : Program) (start : InstructionPointer) (fuel : Nat) (t : Tracer)
        (s : InterpState) (fp pc : Nat) (t1 : Tracer) (s1 : InterpState),
        traceInterp prog start fuel t s fp pc = some (t1, s1) →
        activeNoBranch t → activeNoBranch t1) ∧
    (∀ (t : Tracer) (key : Nat) (buf : List OpCode) (t1 : Tracer),
        t.active = some buf → finish_trace t key = some t1 →
        t1.active = none ∧ lookupT t1.traces key = some buf) := by
  refine ⟨?_, ?_, ?_, fun prog start => traceInterp_preserves prog start, ?_⟩
  · intro t stack heap pos n
    exact ⟨rfl, rfl⟩
  · intro t stack heap pos buf n sv b hact hsv hb
    constructor <;> simp [trace_opcode, hsv, hb, hact]
  · intro t stack heap pos buf op hact hbr
    cases op <;> try (simp [isBranchOp] at hbr)
    all_goals simp [trace_opcode, hact]
  · intro t key buf t1 hact hfin
    rw [finish_trace, hact] at hfin
    injection hfin with hfin
    subst hfin
    exact ⟨rfl, lookupT_insertT _ _ _⟩

/-- Witness for C3: recording a Noop appends it verbatim to the active
buffer. -/
theorem trace_recording_transform_witness :
    trace_opcode
        { counter := [], traces := [], loop_start := 0,
          seen_jump_targets := [], active := some [] }
        [] [] OpCode.Noop { func := 0, pc := 0 } =
      some { counter := [], traces := [], loop_start := 0,
             seen_jump_targets := [], active := some [OpCode.Noop] } :=
  trace_recording_transform.2.2.1
    { counter := [], traces := [], loop_start := 0,
      seen_jump_targets := [], active := some [] }
    [] [] { func := 0, pc := 0 } [] OpCode.Noop rfl rfl

/-- C2: blackhole recovery.  The replay starts at the recovery program
counter (the start position); each executed step is an ordinary
baseline dispatch step (no recording: blackhole threads no tracer);
execution stops with the current state once the program counter has
dropped below the merge-point opcode index (same-function window), and
whenever a dispatched jump targets an index earlier than the recovery
start the loop stops immediately with the post-dispatch state;
Next, Call and in-window Jump outcomes continue the loop on the
dispatched state, and a fatal dispatch (or the outermost return) is
fatal for the recovery. -/
theorem blackhole_recovery (prog : Program) (start stop : InstructionPointer) :
    (∀ (fuel : Nat) (s : InterpState),
        blackhole fuel prog s start stop =
          blackholeLoop prog start stop fuel s stop.func start.pc) ∧
    (∀ (fuel : Nat) (s : InterpState) (funcPtr pc : Nat) (op : OpCode),
      fetchOp prog funcPtr pc = some op →
      ((start.func = stop.func ∧ pc < stop.pc) →
          blackholeLoop prog start stop (fuel + 1) s funcPtr pc = some s) ∧
      (¬(start.func = stop.func ∧ pc < stop.pc) →
        (dispatch prog s op { func := funcPtr, pc := pc } = none →
            blackholeLoop prog start stop (fuel + 1) s funcPtr pc = none) ∧
        (∀ s1, dispatch prog s op { func := funcPtr, pc := pc } = some (s1, .Next) →
            blackholeLoop prog start stop (fuel + 1) s funcPtr pc =
              blackholeLoop prog start stop fuel s1 funcPtr (pc + 1)) ∧
        (∀ s1 q, dispatch prog s op { func := funcPtr, pc := pc } = some (s1, .Jump q) →
            (q < start.pc →
                blackholeLoop prog start stop (fuel + 1) s funcPtr pc = some s1) ∧
            (¬ q < start.pc →
                blackholeLoop prog start stop (fuel + 1) s funcPtr pc =
                  blackholeLoop prog start stop fuel s1 funcPtr q)) ∧
        (∀ s1 f q, dispatch prog s op { func := funcPtr, pc := pc } = some (s1, .Call f q) →
            blackholeLoop prog start stop (fuel + 1) s funcPtr pc =
              blackholeLoop prog start stop fuel s1 f q) ∧
        (∀ s1, dispatch prog s op { func := funcPtr, pc := pc } = some (s1, .Stop) →
            blackholeLoop prog start stop (fuel + 1) s funcPtr pc = none))) := by
  constructor
  · intro fuel s
    rfl
  · intro fuel s funcPtr pc op hf
    constructor
    · intro hcond
      simp only [blackholeLoop, hf]
      rw [if_pos hcond]
    · intro hcond
      refine ⟨?_, ?_, ?_, ?_, ?_⟩
      · intro hd
        simp only [blackholeLoop, hf, hd]
        rw [if_neg hcond]
      · intro s1 hd
        simp only [blackholeLoop, hf, hd]
        rw [if_neg hcond]
      · intro s1 q hd
        constructor
        · intro hq
          simp only [blackholeLoop, hf, hd]
          rw [if_neg hcond, if_pos hq]
        · intro hq
          simp only [blackholeLoop, hf, hd]
          rw [if_neg hcond, if_neg hq]
      · intro s1 f q hd
        simp only [blackholeLoop, hf, hd]
        rw [if_neg hcond]
      · intro s1 hd
        simp only [blackholeLoop, hf, hd]
        rw [if_neg hcond]

/-- Witness for C2: with the window already closed (the program counter
below the merge-point index in the same function), one recovery step
returns the state untouched. -/
theorem blackhole_recovery_witness :
    blackholeLoop [(0, 0, [OpCode.Noop])] { func := 0, pc := 5 } { func := 0, pc := 5 }
        1 { heap := [], stack := [], stack_frames := [] } 0 0 =
      some { heap := [], stack := [], stack_frames := [] } :=
  ((blackhole_recovery [(0, 0, [OpCode.Noop])] { func := 0, pc := 5 }
      { func := 0, pc := 5 }).2 0
      { heap := [], stack := [], stack_frames := [] } 0 0 OpCode.Noop rfl).1
    ⟨rfl, by decide⟩

/-- C9: the checked binary operation never signals: whenever the
underlying operation computes a value (notably also when the machine
arithmetic wrapped around), CheckedBinOp pushes a two-cell aggregate
whose first cell holds the computed result and whose second cell holds
the boolean false (success); no overflow check is ever made. -/
theorem checked_binop_never_signals (prog : Program) (kind : BinOp)
    (s : InterpState) (pos : InstructionPointer) (v : RVal) (s1 : InterpState)
    (h : doBinop prog kind
        { s with heap := s.heap ++ List.replicate 2 placeholderVal } = some (v, s1)) :
    ∃ s2, dispatch prog s (OpCode.CheckedBinOp kind) pos = some (s2, .Next) ∧
      s2.stack =
        StackVal.owned (RVal.Struct [s.heap.length, s.heap.length + 1]) :: s1.stack ∧
      s2.heap[s.heap.length]? = some v ∧
      s2.heap[s.heap.length + 1]? = some (RVal.Bool false) := by
  have hheap : s1.heap = s.heap ++ List.replicate 2 placeholderVal := (doBinop_state h).1
  have hlen : s1.heap.length = s.heap.length + 2 := by
    rw [hheap]
    simp
  have hw0 : writeCell s1.heap s.heap.length v =
      some (s1.heap.set s.heap.length v) := by
    rw [writeCell, if_pos]
    omega
  have hw1 : writeCell (s1.heap.set s.heap.length v) (s.heap.length + 1)
      (RVal.Bool false) =
      some ((s1.heap.set s.heap.length v).set (s.heap.length + 1) (RVal.Bool false)) := by
    rw [writeCell, if_pos]
    simp only [List.length_set]
    omega
  have hco : o_checked_binop prog kind s =
      some (push { s1 with heap :=
              (s1.heap.set s.heap.length v).set (s.heap.length + 1) (RVal.Bool false) }
            (.owned (.Struct [s.heap.length, s.heap.length + 1]))) := by
    unfold o_checked_binop
    simp only [allocCells, range'_pair, Option.bind_eq_bind]
    rw [h]
    simp only [Option.some_bind]
    simp only [List.getElem?_cons_zero, Option.some_bind, List.getElem?_cons_succ]
    rw [hw0]
    simp only [Option.some_bind]
    rw [hw1]
    rfl
  refine ⟨push { s1 with heap :=
        (s1.heap.set s.heap.length v).set (s.heap.length + 1) (RVal.Bool false) }
      (.owned (.Struct [s.heap.length, s.heap.length + 1])), ?_, rfl, ?_, ?_⟩
  · simp only [dispatch, hco]
    rfl
  · show ((s1.heap.set s.heap.length v).set (s.heap.length + 1) (RVal.Bool false))[s.heap.length]? = some v
    rw [List.getElem?_set_ne (by omega)]
    exact List.getElem?_set_self (by omega)
  · show ((s1.heap.set s.heap.length v).set (s.heap.length + 1) (RVal.Bool false))[s.heap.length + 1]? = some (RVal.Bool false)
    refine List.getElem?_set_self ?_
    simp only [List.length_set]
    omega

/-- Witness for C9: adding 1 to the largest signed 64-bit value wraps
around to the smallest, and CheckedBinOp still reports success: the
pushed record is (MIN, false). -/
theorem checked_binop_never_signals_witness :
    ∃ s2, dispatch []
        { heap := [], stack := [StackVal.owned (RVal.I64 1),
                                StackVal.owned (RVal.I64 (2 ^ 63 - 1))],
          stack_frames := [] }
        (OpCode.CheckedBinOp BinOp.Add) { func := 0, pc := 0 } = some (s2, .Next) ∧
      s2.stack = [StackVal.owned (RVal.Struct [0, 1])] ∧
      s2.heap[0]? = some (RVal.I64 (-(2 ^ 63))) ∧
      s2.heap[1]? = some (RVal.Bool false) :=
  checked_binop_never_signals [] BinOp.Add
    { heap := [], stack := [StackVal.owned (RVal.I64 1),
                            StackVal.owned (RVal.I64 (2 ^ 63 - 1))],
      stack_frames := [] }
    { func := 0, pc := 0 } (RVal.I64 (-(2 ^ 63)))
    { heap := [placeholderVal, placeholderVal], stack := [], stack_frames := [] }
    (by decide)

/-- C1 counterexample: a finished trace may contain a Call opcode (the
recording transform copies it verbatim), and on it the trace executor
does not have the baseline semantics: the baseline interpreter
performs the call, while run_trace hits its unimplemented arm and
aborts. -/
theorem run_trace_call_unsupported :
    dispatch [(0, 0, [OpCode.Noop])]
        { heap := [], stack := [StackVal.owned (RVal.Func 0)], stack_frames := [] }
        OpCode.Call { func := 0, pc := 0 } =
      some ({ heap := [], stack := [],
              stack_frames := [{ return_addr := some { func := 0, pc := 0 },
                                 locals := [] }] },
            DispatchResult.Call 0 0) ∧
    runTraceStep [(0, 0, [OpCode.Noop])] [OpCode.Call]
        { heap := [], stack := [StackVal.owned (RVal.Func 0)], stack_frames := [] }
        0 = none :=
  ⟨by decide, by decide⟩

/-- C1 (amended): the trace executor agrees with the baseline
interpreter opcode by opcode for every opcode except the call and
return family, with the trace position wrapping to zero past the end
of the trace, and a Guard peeking at the boolean on top of the stack:
on a match it pops the boolean and continues at the next position, on
a mismatch it leaves the boolean in place and run_trace returns the
guard to the caller with the state unchanged. -/
theorem run_trace_semantics (prog : Program) (tr : List OpCode)
    (s : InterpState) (pc : Nat) :
    (pc ≥ tr.length → runTraceStep prog tr s pc = runTraceStep prog tr s 0) ∧
    (∀ g, pc < tr.length → tr[pc]? = some (.Guard g) →
      ∀ b, peekValue prog s = some (.Bool b) →
        (b = g.expected →
            runTraceStep prog tr s pc =
              some (.cont { s with stack := s.stack.tail } (pc + 1))) ∧
        (b ≠ g.expected →
            runTraceStep prog tr s pc = some (.fail g s) ∧
            ∀ fuel, runTrace prog tr (fuel + 1) s pc = some (g, s))) ∧
    (∀ (fidx : Nat) (op : OpCode), pc < tr.length → tr[pc]? = some op →
        traceSupported op = true →
        stepAgrees (dispatch prog s op { func := fidx, pc := pc })
          (runTraceStep prog tr s pc) pc) := by
  refine ⟨?_, ?_, ?_⟩
  · intro hge
    simp [runTraceStep, hge]
  · intro g hlt hfetch b hpeek
    have hnge : ¬ pc ≥ tr.length := by omega
    have hfail : b ≠ g.expected → runTraceStep prog tr s pc = some (.fail g s) := by
      intro hb
      simp [runTraceStep, hnge, hfetch, hpeek, hb]
    constructor
    · intro hb
      simp [runTraceStep, hnge, hfetch, hpeek, hb]
    · intro hb
      refine ⟨hfail hb, ?_⟩
      intro fuel
      rw [runTrace, hfail hb]
  · intro fidx op hlt hfetch hsup
    have hnge : ¬ pc ≥ tr.length := by omega
    cases op
    case Guard g => simp [traceSupported] at hsup
    case Call => simp [traceSupported] at hsup
    case Static i => simp [traceSupported] at hsup
    case Return => simp [traceSupported] at hsup
    case Panic => simp [dispatch, runTraceStep, hnge, hfetch, stepAgrees]
    case ConstValue v => simp [dispatch, runTraceStep, hnge, hfetch, stepAgrees]
    case Tuple n => simp [dispatch, runTraceStep, hnge, hfetch, stepAgrees]
    case TupleInit idx =>
      cases hop : o_tuple_init prog idx s <;>
        simp [dispatch, runTraceStep, hnge, hfetch, hop, stepAgrees]
    case TupleGet idx =>
      cases hop : o_tuple_get prog idx s <;>
        simp [dispatch, runTraceStep, hnge, hfetch, hop, stepAgrees]
    case TupleSet idx =>
      cases hop : o_tuple_set prog idx s <;>
        simp [dispatch, runTraceStep, hnge, hfetch, hop, stepAgrees]
    case Unsize =>
      rcases hp : popRaw s with _ | ⟨sv, s1⟩
      · simp [dispatch, runTraceStep, hnge, hfetch, hp, stepAgrees]
      · cases hio : intoOwned s1.heap sv <;>
          simp [dispatch, runTraceStep, hnge, hfetch, hp, hio, stepAgrees]
    case Use =>
      rcases hp : popRaw s with _ | ⟨sv, s1⟩
      · simp [dispatch, runTraceStep, hnge, hfetch, hp, stepAgrees]
      · cases hio : intoOwned s1.heap sv <;>
          simp [dispatch, runTraceStep, hnge, hfetch, hp, hio, stepAgrees]
    case Ref =>
      cases hop : o_ref s <;>
        simp [dispatch, runTraceStep, hnge, hfetch, hop, stepAgrees]
    case Deref =>
      cases hop : o_deref s <;>
        simp [dispatch, runTraceStep, hnge, hfetch, hop, stepAgrees]
    case Load i =>
      cases hop : o_load i s <;>
        simp [dispatch, runTraceStep, hnge, hfetch, hop, stepAgrees]
    case Store i =>
      cases hop : o_store i s <;>
        simp [dispatch, runTraceStep, hnge, hfetch, hop, stepAgrees]
    case Skip n => simp [dispatch, runTraceStep, hnge, hfetch, stepAgrees]
    case JumpBack n => simp [dispatch, runTraceStep, hnge, hfetch, stepAgrees]
    case SkipIf n =>
      rcases hpv : popValue prog s with _ | ⟨v, s1⟩
      · simp [dispatch, runTraceStep, hnge, hfetch, hpv, stepAgrees]
      · cases v <;>
          simp [dispatch, runTraceStep, hnge, hfetch, hpv, stepAgrees]
        case Bool b =>
          cases b <;> simp [stepAgrees]
    case JumpBackIf n =>
      rcases hpv : popValue prog s with _ | ⟨v, s1⟩
      · simp [dispatch, runTraceStep, hnge, hfetch, hpv, stepAgrees]
      · cases v <;>
          simp [dispatch, runTraceStep, hnge, hfetch, hpv, stepAgrees]
        case Bool b =>
          cases b <;> simp [stepAgrees]
    case GetIndex =>
      cases hop : o_get_index prog s <;>
        simp [dispatch, runTraceStep, hnge, hfetch, hop, stepAgrees]
    case AssignIndex =>
      cases hop : o_assign_index prog s <;>
        simp [dispatch, runTraceStep, hnge, hfetch, hop, stepAgrees]
    case Array n =>
      cases hop : o_array prog n s <;>
        simp [dispatch, runTraceStep, hnge, hfetch, hop, stepAgrees]
    case Repeat n =>
      cases hop : o_repeat prog n s <;>
        simp [dispatch, runTraceStep, hnge, hfetch, hop, stepAgrees]
    case Len =>
      cases hop : o_len prog s <;>
        simp [dispatch, runTraceStep, hnge, hfetch, hop, stepAgrees]
    case BinOp kind =>
      cases hop : o_binop prog kind s <;>
        simp [dispatch, runTraceStep, hnge, hfetch, hop, stepAgrees]
    case CheckedBinOp kind =>
      cases hop : o_checked_binop prog kind s <;>
        simp [dispatch, runTraceStep, hnge, hfetch, hop, stepAgrees]
    case Not =>
      cases hop : o_not prog s <;>
        simp [dispatch, runTraceStep, hnge, hfetch, hop, stepAgrees]
    case Neg => simp [dispatch, runTraceStep, hnge, hfetch, stepAgrees]
    case Noop => simp [dispatch, runTraceStep, hnge, hfetch, stepAgrees]
    case Pop => simp [dispatch, runTraceStep, hnge, hfetch, stepAgrees]

/-- Witness for the amended C1: at a concrete one-opcode trace holding
a Guard expecting true while false is on top of the stack, the guard
mismatch returns the guard with the boolean left on the stack. -/
theorem run_trace_semantics_witness :
    runTraceStep [] [OpCode.Guard { expected := true, recovery := { func := 0, pc := 4 } }]
        { heap := [], stack := [StackVal.owned (RVal.Bool false)], stack_frames := [] } 0 =
      some (.fail { expected := true, recovery := { func := 0, pc := 4 } }
        { heap := [], stack := [StackVal.owned (RVal.Bool false)], stack_frames := [] }) :=
  (((run_trace_semantics []
      [OpCode.Guard { expected := true, recovery := { func := 0, pc := 4 } }]
      { heap := [], stack := [StackVal.owned (RVal.Bool false)], stack_frames := [] }
      0).2.1 { expected := true, recovery := { func := 0, pc := 4 } }
      (by decide) rfl false rfl).2 (by decide)).1

/-- C7: when the tracer decision is None, merge_point returns the
driver with only the tracer bookkeeping updated, the user program
counter unchanged and the external cell unchanged, for every fuel
budget (in particular fuel zero: no interpreter or trace-executor step
can have run); and the decision is None in particular whenever no
trace is cached for the key, no recording is active and the updated
visit count stays within the hotness threshold. -/
theorem merge_point_none_is_noop (fuel : Nat) (d : Driver) (prog : Program)
    (fnIdx ocIdx : Nat) (userProgram : List Nat) (pc cell : Nat) :
    (∀ t1, handle_mergepoint d.tracer pc = some (t1, MergePointResult.None) →
        merge_point fuel d prog fnIdx ocIdx userProgram pc cell =
          some ({ tracer := t1 }, pc, cell)) ∧
    (lookupT d.tracer.traces pc = none → d.tracer.active = none →
      (lookupT d.tracer.counter pc).getD 0 + 1 ≤ HOT_LOOP_THRESHOLD →
      merge_point fuel d prog fnIdx ocIdx userProgram pc cell =
        some (Driver.mk { d.tracer with counter := insertT d.tracer.counter pc ((lookupT d.tracer.counter pc).getD 0 + 1) }, pc, cell)) := by
  constructor
  · intro t1 h
    simp [merge_point, h]
  · intro htr hact hcold
    have h := ((handle_mergepoint_transitions d.tracer pc).2 htr hact).2 hcold
    simp [merge_point, h]

/-- Witness for C7: a first (cold) visit with fuel zero returns the
program counter 3 and cell 10 unchanged. -/
theorem merge_point_none_is_noop_witness :
    merge_point 0
        { tracer := { counter := [], traces := [], loop_start := 0,
                      seen_jump_targets := [], active := none } }
        [(0, 0, [OpCode.Noop])] 0 0 [1, 2] 3 10 =
      some ({ tracer := { counter := [(3, 1)], traces := [], loop_start := 0,
                          seen_jump_targets := [], active := none } }, 3, 10) :=
  (merge_point_none_is_noop 0 _ _ 0 0 [1, 2] 3 10).1 _ rfl

end Grass
